import Mathlib

/-!
Verification development for `src/group_excel.py` (excel-grouper).

The Python source is shallowly embedded: pure string manipulation becomes
Lean functions on `String` / `List Char`, the filesystem becomes an explicit
finite state (`FS`), and the organizing pass (`main`'s loop) becomes a fold
over the directory listing.  Python's `re` module is an external library, so
regex evaluation is modelled by an abstract oracle (`ReSearch`); every other
definition is translated directly from the source.  Wall-clock timestamps are
omitted from log records (each Python record is `[timestamp] details`; we keep
the `details` part only).
-/

namespace ExcelGrouper

/-! ## Python string primitives used by the source -/

/-- Whitespace as Python's `str.strip()` treats it (the ASCII part). -/
def pySpace (c : Char) : Bool :=
  c = ' ' || c = '\t' || c = '\n' || c = '\r' || c = '\x0b' || c = '\x0c'

/-- Strip `pySpace` characters from both ends of a character list. -/
def pyStripList (l : List Char) : List Char :=
  ((l.dropWhile pySpace).reverse.dropWhile pySpace).reverse

/-- Python `s.strip()`. -/
def pyStrip (s : String) : String := ⟨pyStripList s.data⟩

/-- Index of the last `'.'` in a character list (Python `str.rfind('.')`),
`none` when there is no dot. -/
def rfindDot (l : List Char) : Option Nat :=
  match (l.reverse.findIdx? (fun c => c = '.')) with
  | none => none
  | some j => some (l.length - 1 - j)

/-- Python `pathlib.PurePath.stem` of a file name (no path separators):
the name without its extension; names whose only dot is leading or trailing
keep the whole name (CPython: keep `name[:i]` only when `0 < i < len - 1`). -/
def pyStem (name : String) : String :=
  match rfindDot name.data with
  | none => name
  | some i =>
      if 0 < i ∧ i < name.data.length - 1 then ⟨name.data.take i⟩ else name

/-- Python `pathlib.PurePath.suffix` of a file name: the extension including
the dot, or `""` (CPython: `name[i:]` only when `0 < i < len - 1`). -/
def pySuffix (name : String) : String :=
  match rfindDot name.data with
  | none => ""
  | some i =>
      if 0 < i ∧ i < name.data.length - 1 then ⟨name.data.drop i⟩ else ""

/-- Python `s.lower()` (the ASCII part, which covers the extensions the
source compares against). -/
def pyLower (s : String) : String := ⟨s.data.map Char.toLower⟩

/-- Python `d in s` on character lists: does `d` occur as a contiguous
subsequence of `l`? -/
def hasSub (d : List Char) : List Char → Bool
  | [] => d.isEmpty
  | c :: rest => d.isPrefixOf (c :: rest) || hasSub d rest

/-- Python `d in s` for strings. -/
def pyIn (d s : String) : Bool := hasSub d.data s.data

/-- Everything before the first occurrence of `d` (Python
`s.split(d, 1)[0]` for nonempty `d`); the whole list when `d` is absent. -/
def splitBeforeList (d : List Char) : List Char → List Char
  | [] => []
  | c :: rest =>
      if d.isPrefixOf (c :: rest) then [] else c :: splitBeforeList d rest

/-- Python `s.split(d, 1)[0]` for a nonempty delimiter `d`. -/
def splitBefore (d s : String) : String := ⟨splitBeforeList d.data s.data⟩

/-! ## Decimal rendering (Python `str(i)` / f-string interpolation of ints) -/

/-- The decimal digit character for `n % 10`-style values. -/
def digitChar : Nat → Char
  | 0 => '0' | 1 => '1' | 2 => '2' | 3 => '3' | 4 => '4'
  | 5 => '5' | 6 => '6' | 7 => '7' | 8 => '8' | _ => '9'

/-- Decimal digits of `n`, most significant first; `fuel` bounds the
recursion depth (structural so that the kernel can evaluate it). -/
def natDigitsAux : Nat → Nat → List Char
  | 0, _ => []
  | fuel + 1, n =>
      if n < 10 then [digitChar n]
      else natDigitsAux fuel (n / 10) ++ [digitChar (n % 10)]

/-- Decimal digits of `n`, most significant first. -/
def natDigits (n : Nat) : List Char := natDigitsAux (n + 1) n

/-- Python `str(n)` for a natural number. -/
def natRepr (n : Nat) : String := ⟨natDigits n⟩

/-! ## Configuration (source: `DEFAULT_CONFIG` keys, after `load_config`
normalization).  Field names mirror the JSON keys `delimiter`, `use_regex`,
`regex_pattern`, `mode`, `skip_if_no_prefix`. -/

structure Config where
  delimiter : String
  useRegex : Bool
  regexPattern : String
  mode : String
  skipIfNoPrefix : Bool
deriving DecidableEq

/-- Outcome of evaluating `re.search(pattern, text)` followed by reading
`group(1)`.  Python's `re` is an external library, so it is modelled as an
abstract, pure oracle over (pattern, text):
`err` – an exception was raised (bad pattern syntax, or no group 1 in the
pattern, or `group(1)` returned `None` so `.strip()` raised
`AttributeError`); `noMatch` – `re.search` returned `None`;
`group1` – the match succeeded and group 1 captured the given string. -/
inductive ReOutcome where
  | err
  | noMatch
  | group1 (s : String)
deriving DecidableEq

/-- A regex oracle: the semantics of `re.search` + `group(1)`. -/
def ReSearch : Type := String → String → ReOutcome

/-- Oracle for runs that never reach the regex branch (or never match). -/
def reNone : ReSearch := fun _ _ => ReOutcome.noMatch

/-- Source `extract_prefix(filename, cfg)` (lines 75–97): the grouping key,
or `none` for Python `None`.  In regex mode the source wraps the search in
`try/except` and returns `None` on any exception, which the oracle's `err`
outcome reproduces; in delimiter mode it splits the stem at the first
occurrence of a nonempty delimiter, else falls back to the whole stem, always
stripping and mapping an empty result to `None`. -/
def extractPrefix (rs : ReSearch) (filename : String) (cfg : Config) :
    Option String :=
  let base := pyStem filename
  if cfg.useRegex then
    match rs cfg.regexPattern base with
    | ReOutcome.group1 g => if pyStrip g = "" then none else some (pyStrip g)
    | _ => none
  else if cfg.delimiter ≠ "" ∧ pyIn cfg.delimiter base = true then
    let p := pyStrip (splitBefore cfg.delimiter base)
    if p = "" then none else some p
  else
    if pyStrip base = "" then none else some (pyStrip base)

/-! ## Filesystem model

A finite, flat view of the filesystem: the set of existing directories and
an association list from file paths to their contents (contents are abstract
in `α`).  Paths are rendered strings, `dir ++ "/" ++ name`, exactly the
strings `pathlib` produces for the paths this program builds. -/

structure FS (α : Type) where
  dirs : List String
  files : List (String × α)
deriving DecidableEq

/-- Python `Path.exists()` restricted to directories. -/
def FS.isDir (fs : FS α) (p : String) : Bool := fs.dirs.contains p

/-- Contents of the file at `p`, when one exists. -/
def FS.content (fs : FS α) (p : String) : Option α := fs.files.lookup p

/-- Python `Path.exists()`: a directory or a file is at `p`. -/
def FS.existsPath (fs : FS α) (p : String) : Bool :=
  fs.isDir p || (fs.content p).isSome

/-- Python `dst_dir.mkdir(exist_ok=True)` when no file blocks the name. -/
def FS.mkdir (fs : FS α) (p : String) : FS α :=
  if fs.dirs.contains p then fs else { fs with dirs := p :: fs.dirs }

/-- A Python exception: its type name and message. -/
structure PyExc where
  ename : String
  msg : String
deriving DecidableEq

/-- Source f-string `f"{src.stem}({i}){src.suffix}"` prefixed by the
destination directory: the `i`-th collision candidate path. -/
def collCand (dstDir stem sfx : String) (i : Nat) : String :=
  dstDir ++ "/" ++ stem ++ "(" ++ natRepr i ++ ")" ++ sfx

/-- Source `while dst.exists(): dst = dst_dir / f"{src.stem}({i}){src.suffix}";
i += 1` (lines 105–108).  The Python loop is unbounded; here `fuel` is an
upper bound on the number of iterations, and `fuelFor` below is proved
sufficient for every finite filesystem, so the embedding computes exactly
what the unbounded loop computes. -/
def findDstLoop (fs : FS α) (dstDir stem sfx : String) :
    String → Nat → Nat → String
  | dst, _, 0 => dst
  | dst, i, fuel + 1 =>
      if fs.existsPath dst then
        findDstLoop fs dstDir stem sfx (collCand dstDir stem sfx i) (i + 1) fuel
      else dst

/-- Enough loop iterations for any filesystem with this many entries. -/
def fuelFor (fs : FS α) : Nat := fs.dirs.length + fs.files.length + 2

/-- The destination path the collision loop settles on. -/
def findDst (fs : FS α) (dstDir name stem sfx : String) : String :=
  findDstLoop fs dstDir stem sfx (dstDir ++ "/" ++ name) 1 (fuelFor fs)

/-- Source `safe_copy_or_move(src, dst_dir, mode)` (lines 100–115) over the
filesystem model; `src` is given as its directory and file name.  `mkdir`
raises `FileExistsError` when a file occupies the directory's name, and
`shutil.copy2` / `shutil.move` raise `FileNotFoundError` when the source
file is gone; both propagate to the caller, modelled with `Except`. -/
def safeCopyOrMove (fs : FS α) (srcDir srcName dstDir mode : String) :
    Except PyExc (FS α × String) :=
  if (fs.content dstDir).isSome then
    Except.error ⟨"FileExistsError", dstDir⟩
  else
    let fs1 := fs.mkdir dstDir
    let src := srcDir ++ "/" ++ srcName
    let dst := findDst fs1 dstDir srcName (pyStem srcName) (pySuffix srcName)
    match fs1.content src with
    | none => Except.error ⟨"FileNotFoundError", src⟩
    | some c =>
        if mode = "copy" then
          Except.ok ({ fs1 with files := (dst, c) :: fs1.files }, dst)
        else
          Except.ok
            ({ fs1 with
                files := (dst, c) :: fs1.files.filter (fun kv => kv.1 ≠ src) },
              dst)

/-- Returned path of a placement, when it succeeded. -/
def placedPath (r : Except PyExc (FS α × String)) : Option String :=
  match r with
  | Except.ok (_, p) => some p
  | Except.error _ => none

/-- Filesystem after a placement, the old one when it failed. -/
def placedFS (r : Except PyExc (FS α × String)) (fallback : FS α) : FS α :=
  match r with
  | Except.ok (fs, _) => fs
  | Except.error _ => fallback

/-! ## The organizing pass (source `main`, lines 118–177) -/

/-- Source `EXCEL_EXTS` (line 8). -/
def EXCEL_EXTS : List String := [".xlsx", ".xlsm", ".xls"]

/-- Source `CONFIG_FILENAME` (line 19). -/
def CONFIG_FILENAME : String := "config.json"

/-- Source `LOG_FILENAME` (line 20). -/
def LOG_FILENAME : String := "excel_grouper.log"

/-- One entry of `app_dir.iterdir()`: its final name and whether
`is_file()` holds. -/
structure Entry where
  name : String
  isFile : Bool
deriving DecidableEq

/-- Pipeline state: the filesystem, the three counters, and the log records
written so far (without their timestamp prefix). -/
structure RunState (α : Type) where
  fs : FS α
  processed : Nat
  skipped : Nat
  errors : Nat
  log : List String
deriving DecidableEq

/-- An abstract placer with `safe_copy_or_move`'s interface
`(fs, srcDir, srcName, dstDir, mode)`: the pipeline theorems hold for any
placement behavior, failure included; `safeCopyOrMove` is the program's
instance. -/
def Placer (α : Type) : Type :=
  FS α → String → String → String → String → Except PyExc (FS α × String)

/-- The placer the program actually uses. -/
def realPlacer : Placer α :=
  fun fs srcDir srcName dstDir mode =>
    safeCopyOrMove fs srcDir srcName dstDir mode

/-- Python falsiness of `prefix` (a `str | None`): `None` or the empty
string. -/
def pyFalsy : Option String → Bool
  | none => true
  | some s => s = ""

/-- The placement half of the loop body (source lines 152–155, and the
`except` arm, lines 157–159): call the placer with the key's directory,
then count and log the outcome. -/
def placeStep (pl : Placer α) (cfg : Config) (appDir : String)
    (s : RunState α) (e : Entry) (key : String) : RunState α :=
  match pl s.fs appDir e.name (appDir ++ "/" ++ key) cfg.mode with
  | Except.ok (fs', _) =>
      { s with fs := fs', processed := s.processed + 1,
               log := s.log ++ ["DONE | " ++ e.name ++ " -> " ++ key ++ "/"] }
  | Except.error exc =>
      { s with errors := s.errors + 1,
               log := s.log ++
                 ["ERROR | " ++ e.name ++ " | " ++ exc.ename ++ ": " ++
                   exc.msg] }

/-- One iteration of the `for file in app_dir.iterdir()` body
(source lines 134–159). -/
def processEntry (pl : Placer α) (rs : ReSearch) (cfg : Config)
    (appDir : String) (s : RunState α) (e : Entry) : RunState α :=
  if !e.isFile then s
  else if !(EXCEL_EXTS.contains (pyLower (pySuffix e.name))) then s
  else if e.name = CONFIG_FILENAME ∨ e.name = LOG_FILENAME then s
  else
    let pfx := extractPrefix rs e.name cfg
    if pyFalsy pfx then
      if cfg.skipIfNoPrefix then
        { s with skipped := s.skipped + 1,
                 log := s.log ++ ["SKIP(no prefix) | " ++ e.name] }
      else
        placeStep pl cfg appDir s e
          (if pyStrip (pyStem e.name) = "" then "UNGROUPED"
           else pyStrip (pyStem e.name))
    else
      placeStep pl cfg appDir s e (pfx.getD "")

/-- The whole `for` loop over the directory listing. -/
def runPass (pl : Placer α) (rs : ReSearch) (cfg : Config) (appDir : String)
    (entries : List Entry) (s₀ : RunState α) : RunState α :=
  entries.foldl (processEntry pl rs cfg appDir) s₀

/-- The source's `START` record (line 125–128). -/
def startRecord (cfg : Config) : String :=
  "START | mode=" ++ cfg.mode ++ " use_regex=" ++
    (if cfg.useRegex then "True" else "False") ++
    " delimiter='" ++ cfg.delimiter ++ "'"

/-- The source's `END` record (line 161). -/
def endRecord (s : RunState α) : String :=
  "END | processed=" ++ natRepr s.processed ++ " skipped=" ++
    natRepr s.skipped ++ " errors=" ++ natRepr s.errors

/-- Source `main` (lines 118–177) from the point where the configuration is
loaded: log `START`, run the pass, log `END`, and return the exit code
`0 if errors == 0 else 1` (line 177). -/
def mainRun (pl : Placer α) (rs : ReSearch) (cfg : Config) (appDir : String)
    (entries : List Entry) (s₀ : RunState α) : RunState α × Int :=
  let s₁ := { s₀ with log := s₀.log ++ [startRecord cfg] }
  let s := runPass pl rs cfg appDir entries s₁
  ({ s with log := s.log ++ [endRecord s] },
    if s.errors = 0 then 0 else 1)

/-- The program's own pipeline: `mainRun` with the real placer. -/
def mainExcel (rs : ReSearch) (cfg : Config) (appDir : String)
    (entries : List Entry) (s₀ : RunState α) : RunState α × Int :=
  mainRun realPlacer rs cfg appDir entries s₀

/-! ## Derived definitions used by the specification-side statements -/

/-- Value of a decimal digit character (inverse of `digitChar`). -/
def digitVal (c : Char) : Nat :=
  if c = '0' then 0 else if c = '1' then 1 else if c = '2' then 2
  else if c = '3' then 3 else if c = '4' then 4 else if c = '5' then 5
  else if c = '6' then 6 else if c = '7' then 7 else if c = '8' then 8
  else 9

/-- Read a decimal digit list back into a number. -/
def valOfDigits (l : List Char) : Nat :=
  l.foldl (fun a c => 10 * a + digitVal c) 0

/-- Every existing path of the filesystem, directories then file keys. -/
def allPaths (fs : FS α) : List String :=
  fs.dirs ++ fs.files.map Prod.fst

/-- The sequence of paths the collision loop checks: the plain target first,
then the suffixed candidates in order. -/
def placeSeq (dstDir name stem sfx : String) : Nat → String
  | 0 => dstDir ++ "/" ++ name
  | n + 1 => collCand dstDir stem sfx (n + 1)

/-- Scenario for C3: three same-named source files placed one after the
other into the destination directory `d/g`. -/
def scn3FS0 : FS Nat :=
  ⟨["d"], [("s1/name.ext", 1), ("s2/name.ext", 2), ("s3/name.ext", 3)]⟩

def scn3R1 : Except PyExc (FS Nat × String) :=
  safeCopyOrMove scn3FS0 "s1" "name.ext" "d/g" "copy"

def scn3R2 : Except PyExc (FS Nat × String) :=
  safeCopyOrMove (placedFS scn3R1 scn3FS0) "s2" "name.ext" "d/g" "copy"

def scn3R3 : Except PyExc (FS Nat × String) :=
  safeCopyOrMove (placedFS scn3R2 (placedFS scn3R1 scn3FS0)) "s3" "name.ext"
    "d/g" "copy"

/-- Scenario for C9: one file organized twice in copy mode. -/
def scnCopyCfg : Config := ⟨"_", false, "^", "copy", false⟩

def scnCopyS0 : RunState Nat :=
  ⟨⟨["d"], [("d/report_jan.xlsx", 7)]⟩, 0, 0, 0, []⟩

def scnCopyRun1 : RunState Nat :=
  runPass realPlacer reNone scnCopyCfg "d" [⟨"report_jan.xlsx", true⟩]
    scnCopyS0

def scnCopyRun2 : RunState Nat :=
  runPass realPlacer reNone scnCopyCfg "d" [⟨"report_jan.xlsx", true⟩]
    scnCopyRun1

/-- Eligibility of a directory entry (spec: a file whose lowercased
extension is a recognized spreadsheet extension and whose name is neither
the configuration filename nor the log filename). -/
def eligEntry (e : Entry) : Bool :=
  e.isFile && EXCEL_EXTS.contains (pyLower (pySuffix e.name)) &&
    !(e.name == CONFIG_FILENAME || e.name == LOG_FILENAME)

/-- The three counters' total. -/
def sumCounters (s : RunState α) : Nat := s.processed + s.skipped + s.errors

/-- The group key the loop body uses for an eligible entry, `none` when the
entry is skipped. -/
def entryKey (rs : ReSearch) (cfg : Config) (name : String) : Option String :=
  let p := extractPrefix rs name cfg
  if pyFalsy p then
    if cfg.skipIfNoPrefix then none
    else some (if pyStrip (pyStem name) = "" then "UNGROUPED"
               else pyStrip (pyStem name))
  else some (p.getD "")

/-- A placer that always fails: fault injection for the error-isolation
claim. -/
def failPlacer : Placer Nat :=
  fun _ _ _ _ _ => Except.error ⟨"OSError", "disk full"⟩

/-- A delimiter-mode configuration that skips keyless files. -/
def cfgSkip : Config := ⟨"_", false, "^", "move", true⟩

/-! ## Helper lemmas: decimal rendering -/

lemma digitVal_digitChar {n : Nat} (h : n < 10) :
    digitVal (digitChar n) = n := by
  interval_cases n <;> rfl

lemma valOf_natDigitsAux :
    ∀ fuel n, n < 10 ^ fuel → valOfDigits (natDigitsAux fuel n) = n := by
  intro fuel
  induction fuel with
  | zero =>
      intro n h
      simp only [pow_zero, Nat.lt_one_iff] at h
      subst h
      rfl
  | succ f ih =>
      intro n h
      by_cases h10 : n < 10
      · simp [natDigitsAux, h10, valOfDigits, digitVal_digitChar h10]
      · have hdiv : n / 10 < 10 ^ f := by
          rw [Nat.div_lt_iff_lt_mul (by norm_num)]
          rw [pow_succ] at h
          exact h
        have hmod : n % 10 < 10 := Nat.mod_lt _ (by norm_num)
        simp only [natDigitsAux, if_neg h10, valOfDigits, List.foldl_append]
        have ihd := ih (n / 10) hdiv
        simp only [valOfDigits] at ihd
        simp [ihd, digitVal_digitChar hmod, Nat.div_add_mod]

lemma valOf_natDigits (n : Nat) : valOfDigits (natDigits n) = n := by
  have h1 : n < 10 ^ n := Nat.lt_pow_self (by norm_num) n
  have h2 : (10:Nat) ^ n ≤ 10 ^ (n + 1) :=
    Nat.pow_le_pow_right (by norm_num) (Nat.le_succ n)
  exact valOf_natDigitsAux (n + 1) n (lt_of_lt_of_le h1 h2)

lemma natDigits_inj {m n : Nat} (h : natDigits m = natDigits n) : m = n := by
  have hm := valOf_natDigits m
  rw [h, valOf_natDigits] at hm
  omega

lemma natRepr_inj {m n : Nat} (h : natRepr m = natRepr n) : m = n :=
  natDigits_inj (congrArg String.data h)

/-! ## Helper lemmas: substring occurrence and splitting -/

lemma hasSub_iff {d : List Char} :
    ∀ {l : List Char}, hasSub d l = true ↔ ∃ t r, l = t ++ (d ++ r) := by
  intro l
  induction l with
  | nil =>
      simp only [hasSub, List.isEmpty_iff]
      constructor
      · rintro rfl; exact ⟨[], [], rfl⟩
      · rintro ⟨t, r, h⟩
        rcases List.append_eq_nil.mp h.symm with ⟨rfl, h2⟩
        exact (List.append_eq_nil.mp h2).1
  | cons c rest ih =>
      simp only [hasSub, Bool.or_eq_true]
      constructor
      · rintro (hp | hs)
        · rcases List.isPrefixOf_iff_prefix.mp hp with ⟨r, hr⟩
          exact ⟨[], r, hr.symm⟩
        · rcases ih.mp hs with ⟨t, r, hr⟩
          exact ⟨c :: t, r, by simp [hr]⟩
      · rintro ⟨t, r, hr⟩
        cases t with
        | nil =>
            left
            exact List.isPrefixOf_iff_prefix.mpr ⟨r, by simpa using hr.symm⟩
        | cons c' t' =>
            right
            refine ih.mpr ⟨t', r, ?_⟩
            exact (List.cons.inj hr).2

lemma splitBeforeList_eq {d : List Char} (hd : d ≠ []) :
    ∀ (t l r : List Char), l = t ++ (d ++ r) →
      (∀ k, k < t.length → ¬(d.isPrefixOf (l.drop k) = true)) →
      splitBeforeList d l = t := by
  intro t
  induction t with
  | nil =>
      intro l r hl _
      rcases d with _ | ⟨dc, dtl⟩
      · exact absurd rfl hd
      · subst hl
        simp only [List.nil_append, List.cons_append, splitBeforeList]
        rw [if_pos]
        exact List.isPrefixOf_iff_prefix.mpr ⟨r, by simp⟩
  | cons c t' ih =>
      intro l r hl hmin
      subst hl
      simp only [List.cons_append, splitBeforeList]
      rw [if_neg]
      · have htail := ih (t' ++ (d ++ r)) r rfl (fun k hk => by
          have := hmin (k + 1) (by simpa using Nat.succ_lt_succ hk)
          simpa using this)
        exact congrArg (List.cons c) htail
      · have := hmin 0 (by simp)
        simpa using this

/-- C1: in delimiter mode (useRegex = false), when the delimiter is nonempty
and occurs in the stem (the stem decomposes as `t ++ delimiter ++ r` with no
occurrence of the delimiter starting before position `t.length`), the result
is the trimmed `t`, with `none` when the trimmed `t` is empty; when the
delimiter is empty or absent from the stem, the result is the entire trimmed
stem, with `none` when that is empty. -/
theorem c1_delimiter_extraction (rs : ReSearch) (f : String) (cfg : Config)
    (hreg : cfg.useRegex = false) :
    (∀ t r : List Char, cfg.delimiter ≠ "" →
      (pyStem f).data = t ++ (cfg.delimiter.data ++ r) →
      (∀ k, k < t.length →
        ¬(cfg.delimiter.data.isPrefixOf ((pyStem f).data.drop k) = true)) →
      extractPrefix rs f cfg =
        (if pyStrip ⟨t⟩ = "" then none else some (pyStrip ⟨t⟩))) ∧
    ((cfg.delimiter = "" ∨
        ∀ t r : List Char, (pyStem f).data ≠ t ++ (cfg.delimiter.data ++ r)) →
      extractPrefix rs f cfg =
        (if pyStrip (pyStem f) = "" then none
         else some (pyStrip (pyStem f)))) := by
  constructor
  · intro t r hne hdec hmin
    have hin : pyIn cfg.delimiter (pyStem f) = true :=
      hasSub_iff.mpr ⟨t, r, hdec⟩
    have hdl : cfg.delimiter.data ≠ [] := by
      intro h0
      exact hne (String.ext h0)
    have hsplit : splitBeforeList cfg.delimiter.data (pyStem f).data = t :=
      splitBeforeList_eq hdl t _ r hdec hmin
    have hsb : splitBefore cfg.delimiter (pyStem f) = (⟨t⟩ : String) := by
      simp [splitBefore, hsplit]
    simp [extractPrefix, hreg, hne, hin, hsb]
  · intro h
    rcases h with h | h
    · simp [extractPrefix, hreg, h]
    · have hin : ¬(pyIn cfg.delimiter (pyStem f) = true) := by
        intro hc
        rcases hasSub_iff.mp hc with ⟨t, r, hr⟩
        exact h t r hr
      simp only [extractPrefix, hreg, Bool.false_eq_true, if_false]
      rw [if_neg (by
        rintro ⟨-, h2⟩
        exact hin h2)]

/-- Witness for C1 at `report_jan.xlsx` with delimiter `_`. -/
theorem c1_delimiter_extraction_witness :
    extractPrefix reNone "report_jan.xlsx"
      ⟨"_", false, "", "move", false⟩ = some "report" := by
  have h := (c1_delimiter_extraction reNone "report_jan.xlsx"
      ⟨"_", false, "", "move", false⟩ rfl).1 "report".data "jan".data
      (by decide) (by decide) (by decide)
  exact h.trans (by decide)

/-- C2: in regex mode (useRegex = true) the result is determined by the
regex oracle's outcome on (pattern, stem): `none` on an exception and on no
match, and the trimmed first capture group otherwise, with `none` when the
trimmed value is empty.  The embedding is a total function, so no exception
propagates out of extraction. -/
theorem c2_regex_extraction (rs : ReSearch) (f : String) (cfg : Config)
    (hreg : cfg.useRegex = true) :
    (rs cfg.regexPattern (pyStem f) = ReOutcome.err →
      extractPrefix rs f cfg = none) ∧
    (rs cfg.regexPattern (pyStem f) = ReOutcome.noMatch →
      extractPrefix rs f cfg = none) ∧
    (∀ g, rs cfg.regexPattern (pyStem f) = ReOutcome.group1 g →
      extractPrefix rs f cfg =
        (if pyStrip g = "" then none else some (pyStrip g))) := by
  refine ⟨fun h => ?_, fun h => ?_, fun g h => ?_⟩ <;>
    simp [extractPrefix, hreg, h]

/-- Witness for C2: a non-matching pattern yields no key. -/
theorem c2_regex_extraction_witness :
    extractPrefix reNone "data.xlsx" ⟨"_", true, "x", "move", true⟩ = none :=
  (c2_regex_extraction reNone "data.xlsx"
    ⟨"_", true, "x", "move", true⟩ rfl).2.1 rfl

/-! ## Helper lemmas: the collision loop -/

lemma lookup_isSome_mem {l : List (String × α)} {p : String}
    (h : (l.lookup p).isSome = true) : p ∈ l.map Prod.fst := by
  induction l with
  | nil => simp [List.lookup] at h
  | cons kv rest ih =>
      obtain ⟨k, v⟩ := kv
      by_cases hk : p = k
      · simp [hk]
      · have hne : (p == k) = false := beq_eq_false_iff_ne.mpr hk
        rw [List.lookup_cons] at h
        simp only [hne] at h
        exact List.mem_cons_of_mem _ (ih h)

lemma existsPath_mem {fs : FS α} {p : String}
    (h : fs.existsPath p = true) : p ∈ allPaths fs := by
  simp only [FS.existsPath, Bool.or_eq_true] at h
  rcases h with h | h
  · refine List.mem_append_left _ ?_
    have h' : fs.dirs.elem p = true := h
    exact List.elem_iff.mp h'
  · exact List.mem_append_right _ (lookup_isSome_mem h)

lemma collCand_inj {dd st sx : String} {i j : Nat}
    (h : collCand dd st sx i = collCand dd st sx j) : i = j := by
  have h' := congrArg String.data h
  simp only [collCand, String.data_append, List.append_assoc,
    List.append_cancel_left_eq] at h'
  have h'' : (natRepr i).data = (natRepr j).data :=
    List.append_cancel_right h'
  exact natDigits_inj h''

/-- In any finite filesystem some collision candidate with index between 1
and the number of entries plus one is unused. -/
lemma exists_free_cand (fs : FS α) (dd st sx : String) :
    ∃ j, 1 ≤ j ∧ j ≤ (allPaths fs).length + 1 ∧
      fs.existsPath (collCand dd st sx j) = false := by
  by_contra hall
  push_neg at hall
  have hused : ∀ j, 1 ≤ j → j ≤ (allPaths fs).length + 1 →
      fs.existsPath (collCand dd st sx j) = true := by
    intro j h1 h2
    have := hall j h1 h2
    revert this
    cases fs.existsPath (collCand dd st sx j) <;> simp
  set E := (allPaths fs).length with hE
  set L := (List.range (E + 1)).map (fun k => collCand dd st sx (k + 1))
    with hL
  have hnodup : L.Nodup := by
    refine List.Nodup.map ?_ (List.nodup_range E.succ)
    intro a b hab
    have := collCand_inj hab
    omega
  have hsub : ∀ x ∈ L, x ∈ allPaths fs := by
    intro x hx
    rcases List.mem_map.mp hx with ⟨k, hk, rfl⟩
    have hk' : k < E + 1 := List.mem_range.mp hk
    exact existsPath_mem (hused (k + 1) (by omega) (by omega))
  have hcard1 : L.toFinset.card = E + 1 := by
    rw [List.toFinset_card_of_nodup hnodup]
    simp [hL]
  have hcard2 : L.toFinset.card ≤ E := by
    calc L.toFinset.card ≤ (allPaths fs).toFinset.card := by
          refine Finset.card_le_card ?_
          intro x hx
          exact List.mem_toFinset.mpr (hsub x (List.mem_toFinset.mp hx))
      _ ≤ E := by rw [hE]; exact List.toFinset_card_le _
  omega

lemma findDstLoop_spec (fs : FS α) (dd nm st sx : String) :
    ∀ (fuel k : Nat),
      (∃ N, k ≤ N ∧ N < k + fuel ∧
        fs.existsPath (placeSeq dd nm st sx N) = false) →
      ∃ M, k ≤ M ∧ fs.existsPath (placeSeq dd nm st sx M) = false ∧
        (∀ m, k ≤ m → m < M →
          fs.existsPath (placeSeq dd nm st sx m) = true) ∧
        findDstLoop fs dd st sx (placeSeq dd nm st sx k) (k + 1) fuel =
          placeSeq dd nm st sx M := by
  intro fuel
  induction fuel with
  | zero =>
      rintro k ⟨N, h1, h2, -⟩
      omega
  | succ f ih =>
      rintro k ⟨N, h1, h2, h3⟩
      by_cases hfree : fs.existsPath (placeSeq dd nm st sx k) = true
      · have hkN : k ≠ N := by
          intro h
          rw [h, h3] at hfree
          cases hfree
        have hrec := ih (k + 1) ⟨N, by omega, by omega, h3⟩
        rcases hrec with ⟨M, hM1, hM2, hM3, hM4⟩
        refine ⟨M, by omega, hM2, ?_, ?_⟩
        · intro m hm1 hm2
          rcases Nat.eq_or_lt_of_le hm1 with rfl | hlt
          · exact hfree
          · exact hM3 m hlt hm2
        · rw [findDstLoop, if_pos hfree]
          have hcand : collCand dd st sx (k + 1) =
              placeSeq dd nm st sx (k + 1) := rfl
          rw [hcand]
          exact hM4
      · have hfree' : fs.existsPath (placeSeq dd nm st sx k) = false := by
          revert hfree
          cases fs.existsPath (placeSeq dd nm st sx k) <;> simp
        refine ⟨k, le_refl k, hfree', fun m hm1 hm2 => by omega, ?_⟩
        rw [findDstLoop, if_neg (by simp [hfree'])]

/-- The loop of `safe_copy_or_move` returns exactly the first unused path of
the candidate sequence, for every finite filesystem. -/
lemma findDst_spec (fs : FS α) (dd nm st sx : String) :
    ∃ M, fs.existsPath (placeSeq dd nm st sx M) = false ∧
      (∀ m, m < M → fs.existsPath (placeSeq dd nm st sx m) = true) ∧
      findDst fs dd nm st sx = placeSeq dd nm st sx M := by
  rcases exists_free_cand fs dd st sx with ⟨j, hj1, hj2, hj3⟩
  have hseq : placeSeq dd nm st sx j = collCand dd st sx j := by
    rcases j with _ | n
    · omega
    · rfl
  have hex : ∃ N, 0 ≤ N ∧ N < 0 + fuelFor fs ∧
      fs.existsPath (placeSeq dd nm st sx N) = false := by
    refine ⟨j, Nat.zero_le j, ?_, by rw [hseq]; exact hj3⟩
    have : (allPaths fs).length = fs.dirs.length + fs.files.length := by
      simp [allPaths]
    simp only [fuelFor]
    omega
  rcases findDstLoop_spec fs dd nm st sx (fuelFor fs) 0 hex with
    ⟨M, -, hM2, hM3, hM4⟩
  exact ⟨M, hM2, fun m hm => hM3 m (Nat.zero_le m) hm, hM4⟩

lemma mkdir_isDir (fs : FS α) (p : String) : (fs.mkdir p).isDir p = true := by
  by_cases h : p ∈ fs.dirs <;> simp [FS.mkdir, FS.isDir, h]

lemma lookup_filter_ne (l : List (String × α)) (p : String) :
    (l.filter (fun kv => kv.1 ≠ p)).lookup p = none := by
  induction l with
  | nil => rfl
  | cons kv rest ih =>
      obtain ⟨k, v⟩ := kv
      by_cases hk : k = p
      · simp only [List.filter_cons]
        rw [if_neg (by simp [hk])]
        exact ih
      · have hbeq : (p == k) = false :=
          beq_eq_false_iff_ne.mpr (fun h => hk h.symm)
        simp only [List.filter_cons]
        rw [if_pos (by simp [hk]), List.lookup_cons, hbeq]
        simp only [Bool.false_eq_true, if_false]
        exact ih

/-- Unfolding of `safeCopyOrMove` when the destination directory name is not
blocked by a file and the source file exists. -/
lemma safeCopyOrMove_eq (fs : FS α) (srcDir srcName dstDir mode : String)
    (c : α)
    (hdir : (fs.content dstDir).isSome = false)
    (hsrc : (fs.mkdir dstDir).content (srcDir ++ "/" ++ srcName) = some c) :
    safeCopyOrMove fs srcDir srcName dstDir mode =
      (if mode = "copy" then
        Except.ok
          (⟨(fs.mkdir dstDir).dirs,
            (findDst (fs.mkdir dstDir) dstDir srcName (pyStem srcName)
              (pySuffix srcName), c) :: (fs.mkdir dstDir).files⟩,
            findDst (fs.mkdir dstDir) dstDir srcName (pyStem srcName)
              (pySuffix srcName))
      else
        Except.ok
          (⟨(fs.mkdir dstDir).dirs,
            (findDst (fs.mkdir dstDir) dstDir srcName (pyStem srcName)
              (pySuffix srcName), c) ::
              (fs.mkdir dstDir).files.filter
                (fun kv => kv.1 ≠ srcDir ++ "/" ++ srcName)⟩,
            findDst (fs.mkdir dstDir) dstDir srcName (pyStem srcName)
              (pySuffix srcName))) := by
  simp only [safeCopyOrMove, hdir, Bool.false_eq_true, if_false, hsrc]

/-- C3: placement creates the destination directory, targets
`destinationDirectory/sourceFileName`, and returns the first path of the
candidate sequence (plain name, then `stem(1)suffix`, `stem(2)suffix`, …)
that does not exist, every earlier candidate existing; and placing three
same-named files into one destination yields `name.ext`, `name(1).ext`,
`name(2).ext`. -/
theorem c3_collision_safe_placement (fs : FS α)
    (srcDir srcName dstDir mode : String) (c : α)
    (hdir : (fs.content dstDir).isSome = false)
    (hsrc : (fs.mkdir dstDir).content (srcDir ++ "/" ++ srcName) = some c) :
    (∃ fs' dst M,
      safeCopyOrMove fs srcDir srcName dstDir mode = Except.ok (fs', dst) ∧
      fs'.isDir dstDir = true ∧
      dst = placeSeq dstDir srcName (pyStem srcName) (pySuffix srcName) M ∧
      (fs.mkdir dstDir).existsPath
        (placeSeq dstDir srcName (pyStem srcName) (pySuffix srcName) M) =
          false ∧
      (∀ m, m < M → (fs.mkdir dstDir).existsPath
        (placeSeq dstDir srcName (pyStem srcName) (pySuffix srcName) m) =
          true)) ∧
    (placedPath scn3R1 = some "d/g/name.ext" ∧
      placedPath scn3R2 = some "d/g/name(1).ext" ∧
      placedPath scn3R3 = some "d/g/name(2).ext") := by
  constructor
  · have heq := safeCopyOrMove_eq fs srcDir srcName dstDir mode c hdir hsrc
    rcases findDst_spec (fs.mkdir dstDir) dstDir srcName (pyStem srcName)
      (pySuffix srcName) with ⟨M, hM1, hM2, hM3⟩
    by_cases hmode : mode = "copy"
    · rw [if_pos hmode] at heq
      refine ⟨_, _, M, heq, ?_, hM3, hM1, hM2⟩
      simpa [FS.isDir] using mkdir_isDir fs dstDir
    · rw [if_neg hmode] at heq
      refine ⟨_, _, M, heq, ?_, hM3, hM1, hM2⟩
      simpa [FS.isDir] using mkdir_isDir fs dstDir
  · refine ⟨by decide, by decide, by decide⟩

/-- Witness for C3 at a one-file filesystem. -/
theorem c3_collision_safe_placement_witness :
    placedPath scn3R1 = some "d/g/name.ext" ∧
      placedPath scn3R2 = some "d/g/name(1).ext" ∧
      placedPath scn3R3 = some "d/g/name(2).ext" :=
  (c3_collision_safe_placement (⟨["d"], [("s/a.xlsx", (5:Nat))]⟩ : FS Nat)
    "s" "a.xlsx" "d/g" "copy" 5 (by decide) (by decide)).2

/-- C9: after a successful copy the source file still exists with unchanged
content (the copy lands on a fresh path), while a move removes the source;
and the two-run copy scenario duplicates with a `(1)` suffix instead of
overwriting, leaving the original in place. -/
theorem c9_copy_move_frame (fs : FS α) (srcDir srcName dstDir : String)
    (c : α)
    (hdir : (fs.content dstDir).isSome = false)
    (hsrc : (fs.mkdir dstDir).content (srcDir ++ "/" ++ srcName) = some c) :
    (∀ fs' dst,
      safeCopyOrMove fs srcDir srcName dstDir "copy" = Except.ok (fs', dst) →
      fs'.content (srcDir ++ "/" ++ srcName) = some c ∧
        fs'.content dst = some c ∧ dst ≠ srcDir ++ "/" ++ srcName) ∧
    (∀ fs' dst,
      safeCopyOrMove fs srcDir srcName dstDir "move" = Except.ok (fs', dst) →
      fs'.content (srcDir ++ "/" ++ srcName) = none ∧
        fs'.content dst = some c) ∧
    (scnCopyRun2.fs.content "d/report_jan.xlsx" = some 7 ∧
      scnCopyRun2.fs.content "d/report/report_jan.xlsx" = some 7 ∧
      scnCopyRun2.fs.content "d/report/report_jan(1).xlsx" = some 7) := by
  rcases findDst_spec (fs.mkdir dstDir) dstDir srcName (pyStem srcName)
    (pySuffix srcName) with ⟨M, hM1, hM2, hM3⟩
  have hsrcE : (fs.mkdir dstDir).existsPath (srcDir ++ "/" ++ srcName) =
      true := by
    simp [FS.existsPath, hsrc]
  have hfree : (fs.mkdir dstDir).existsPath
      (findDst (fs.mkdir dstDir) dstDir srcName (pyStem srcName)
        (pySuffix srcName)) = false := by
    rw [hM3]; exact hM1
  have hne : findDst (fs.mkdir dstDir) dstDir srcName (pyStem srcName)
      (pySuffix srcName) ≠ srcDir ++ "/" ++ srcName := by
    intro h
    rw [h, hsrcE] at hfree
    cases hfree
  have hbeq : ((srcDir ++ "/" ++ srcName) ==
      findDst (fs.mkdir dstDir) dstDir srcName (pyStem srcName)
        (pySuffix srcName)) = false :=
    beq_eq_false_iff_ne.mpr (fun h => hne h.symm)
  refine ⟨?_, ?_, by decide, by decide, by decide⟩
  · intro fs' dst hok
    rw [safeCopyOrMove_eq fs srcDir srcName dstDir "copy" c hdir hsrc,
      if_pos rfl] at hok
    simp only [Except.ok.injEq, Prod.mk.injEq] at hok
    obtain ⟨h1, h2⟩ := hok
    subst h2
    rw [← h1]
    refine ⟨?_, ?_, hne⟩
    · show List.lookup (srcDir ++ "/" ++ srcName)
        ((findDst (fs.mkdir dstDir) dstDir srcName (pyStem srcName)
          (pySuffix srcName), c) :: (fs.mkdir dstDir).files) = some c
      rw [List.lookup_cons, hbeq]
      simp only [Bool.false_eq_true, if_false]
      exact hsrc
    · show List.lookup (findDst (fs.mkdir dstDir) dstDir srcName
        (pyStem srcName) (pySuffix srcName))
        ((findDst (fs.mkdir dstDir) dstDir srcName (pyStem srcName)
          (pySuffix srcName), c) :: (fs.mkdir dstDir).files) = some c
      exact List.lookup_cons_self
  · intro fs' dst hok
    rw [safeCopyOrMove_eq fs srcDir srcName dstDir "move" c hdir hsrc,
      if_neg (by decide)] at hok
    simp only [Except.ok.injEq, Prod.mk.injEq] at hok
    obtain ⟨h1, h2⟩ := hok
    subst h2
    rw [← h1]
    constructor
    · show List.lookup (srcDir ++ "/" ++ srcName)
        ((findDst (fs.mkdir dstDir) dstDir srcName (pyStem srcName)
          (pySuffix srcName), c) ::
          (fs.mkdir dstDir).files.filter
            (fun kv => kv.1 ≠ srcDir ++ "/" ++ srcName)) = none
      rw [List.lookup_cons, hbeq]
      simp only [Bool.false_eq_true, if_false]
      exact lookup_filter_ne _ _
    · show List.lookup (findDst (fs.mkdir dstDir) dstDir srcName
        (pyStem srcName) (pySuffix srcName))
        ((findDst (fs.mkdir dstDir) dstDir srcName (pyStem srcName)
          (pySuffix srcName), c) ::
          (fs.mkdir dstDir).files.filter
            (fun kv => kv.1 ≠ srcDir ++ "/" ++ srcName)) = some c
      exact List.lookup_cons_self

/-- Witness for C9: the concrete two-run copy scenario. -/
theorem c9_copy_move_frame_witness :
    scnCopyRun2.fs.content "d/report_jan.xlsx" = some 7 ∧
      scnCopyRun2.fs.content "d/report/report_jan.xlsx" = some 7 ∧
      scnCopyRun2.fs.content "d/report/report_jan(1).xlsx" = some 7 :=
  (c9_copy_move_frame (⟨["d"], [("s/a.xlsx", (5:Nat))]⟩ : FS Nat)
    "s" "a.xlsx" "d/g" 5 (by decide) (by decide)).2.2

/-! ## Helper lemmas: the organizing pass -/

lemma eligEntry_parts {e : Entry} (h : eligEntry e = true) :
    e.isFile = true ∧
      EXCEL_EXTS.contains (pyLower (pySuffix e.name)) = true ∧
      ¬(e.name = CONFIG_FILENAME ∨ e.name = LOG_FILENAME) := by
  simp only [eligEntry, Bool.and_eq_true] at h
  obtain ⟨⟨h1, h2⟩, h3⟩ := h
  refine ⟨h1, h2, ?_⟩
  intro hor
  rcases hor with h4 | h4 <;> simp [h4] at h3

lemma processEntry_not_elig (pl : Placer α) (rs : ReSearch) (cfg : Config)
    (appDir : String) (s : RunState α) (e : Entry)
    (h : eligEntry e = false) : processEntry pl rs cfg appDir s e = s := by
  have h' : e.isFile = false ∨
      EXCEL_EXTS.contains (pyLower (pySuffix e.name)) = false ∨
      (e.name == CONFIG_FILENAME || e.name == LOG_FILENAME) = true := by
    revert h
    simp only [eligEntry]
    cases e.isFile <;>
      cases EXCEL_EXTS.contains (pyLower (pySuffix e.name)) <;>
      cases (e.name == CONFIG_FILENAME || e.name == LOG_FILENAME) <;>
      simp
  rcases h' with h' | h' | h'
  · simp [processEntry, h']
  · have h'm : pyLower (pySuffix e.name) ∉ EXCEL_EXTS := by
      intro hm
      rw [show EXCEL_EXTS.contains (pyLower (pySuffix e.name)) = true from
        List.elem_iff.mpr hm] at h'
      cases h'
    simp [processEntry, h'm]
  · have hres : e.name = CONFIG_FILENAME ∨ e.name = LOG_FILENAME := by
      simpa using h'
    simp [processEntry, hres]

lemma processEntry_elig (pl : Placer α) (rs : ReSearch) (cfg : Config)
    (appDir : String) (s : RunState α) (e : Entry)
    (h : eligEntry e = true) :
    processEntry pl rs cfg appDir s e =
      (if pyFalsy (extractPrefix rs e.name cfg) then
        if cfg.skipIfNoPrefix then
          { s with skipped := s.skipped + 1,
                   log := s.log ++ ["SKIP(no prefix) | " ++ e.name] }
        else
          placeStep pl cfg appDir s e
            (if pyStrip (pyStem e.name) = "" then "UNGROUPED"
             else pyStrip (pyStem e.name))
      else
        placeStep pl cfg appDir s e
          ((extractPrefix rs e.name cfg).getD "")) := by
  obtain ⟨h1, h2, h3⟩ := eligEntry_parts h
  have h2m : pyLower (pySuffix e.name) ∈ EXCEL_EXTS := List.elem_iff.mp h2
  simp [processEntry, h1, h2m, h3]

lemma placeStep_cases (pl : Placer α) (cfg : Config) (appDir : String)
    (s : RunState α) (e : Entry) (k : String) :
    ((placeStep pl cfg appDir s e k).processed = s.processed + 1 ∧
      (placeStep pl cfg appDir s e k).skipped = s.skipped ∧
      (placeStep pl cfg appDir s e k).errors = s.errors ∧
      (placeStep pl cfg appDir s e k).log.length = s.log.length + 1) ∨
    ((placeStep pl cfg appDir s e k).errors = s.errors + 1 ∧
      (placeStep pl cfg appDir s e k).processed = s.processed ∧
      (placeStep pl cfg appDir s e k).skipped = s.skipped ∧
      (placeStep pl cfg appDir s e k).log.length = s.log.length + 1) := by
  cases hr : pl s.fs appDir e.name (appDir ++ "/" ++ k) cfg.mode with
  | error exc => right; simp [placeStep, hr]
  | ok v =>
      obtain ⟨fs', p⟩ := v
      left
      simp [placeStep, hr]

lemma processEntry_sum (pl : Placer α) (rs : ReSearch) (cfg : Config)
    (appDir : String) (s : RunState α) (e : Entry)
    (h : eligEntry e = true) :
    sumCounters (processEntry pl rs cfg appDir s e) = sumCounters s + 1 := by
  rw [processEntry_elig pl rs cfg appDir s e h]
  by_cases hf : pyFalsy (extractPrefix rs e.name cfg) = true
  · by_cases hs : cfg.skipIfNoPrefix = true
    · simp [hf, hs, sumCounters]
      omega
    · rcases placeStep_cases pl cfg appDir s e
        (if pyStrip (pyStem e.name) = "" then "UNGROUPED"
         else pyStrip (pyStem e.name)) with ⟨a, b, c, -⟩ | ⟨a, b, c, -⟩ <;>
        simp [hf, hs, sumCounters, a, b, c] <;> omega
  · rcases placeStep_cases pl cfg appDir s e
      ((extractPrefix rs e.name cfg).getD "") with
        ⟨a, b, c, -⟩ | ⟨a, b, c, -⟩ <;>
      simp [hf, sumCounters, a, b, c] <;> omega

lemma processEntry_log (pl : Placer α) (rs : ReSearch) (cfg : Config)
    (appDir : String) (s : RunState α) (e : Entry)
    (h : eligEntry e = true) :
    (processEntry pl rs cfg appDir s e).log.length = s.log.length + 1 := by
  rw [processEntry_elig pl rs cfg appDir s e h]
  by_cases hf : pyFalsy (extractPrefix rs e.name cfg) = true
  · by_cases hs : cfg.skipIfNoPrefix = true
    · simp [hf, hs]
    · rcases placeStep_cases pl cfg appDir s e
        (if pyStrip (pyStem e.name) = "" then "UNGROUPED"
         else pyStrip (pyStem e.name)) with ⟨-, -, -, d⟩ | ⟨-, -, -, d⟩ <;>
        simp [hf, hs, d]
  · rcases placeStep_cases pl cfg appDir s e
      ((extractPrefix rs e.name cfg).getD "") with
        ⟨-, -, -, d⟩ | ⟨-, -, -, d⟩ <;>
      simp [hf, d]

lemma runPass_sum (pl : Placer α) (rs : ReSearch) (cfg : Config)
    (appDir : String) :
    ∀ (entries : List Entry) (s₀ : RunState α),
      sumCounters (runPass pl rs cfg appDir entries s₀) =
        sumCounters s₀ + entries.countP (fun e => eligEntry e) := by
  intro entries
  induction entries with
  | nil => intro s₀; simp [runPass]
  | cons e rest ih =>
      intro s₀
      have hstep : runPass pl rs cfg appDir (e :: rest) s₀ =
          runPass pl rs cfg appDir rest
            (processEntry pl rs cfg appDir s₀ e) := rfl
      rw [hstep, ih]
      by_cases h : eligEntry e = true
      · rw [processEntry_sum pl rs cfg appDir s₀ e h]
        simp [List.countP_cons, h]
        omega
      · have h' : eligEntry e = false := by
          revert h; cases eligEntry e <;> simp
        rw [processEntry_not_elig pl rs cfg appDir s₀ e h']
        simp [List.countP_cons, h']

lemma processEntry_key (pl : Placer α) (rs : ReSearch) (cfg : Config)
    (appDir : String) (s : RunState α) (e : Entry) (k : String)
    (helig : eligEntry e = true)
    (hkey : entryKey rs cfg e.name = some k) :
    processEntry pl rs cfg appDir s e = placeStep pl cfg appDir s e k := by
  rw [processEntry_elig pl rs cfg appDir s e helig]
  unfold entryKey at hkey
  by_cases hf : pyFalsy (extractPrefix rs e.name cfg) = true
  · by_cases hs : cfg.skipIfNoPrefix = true
    · simp [hf, hs] at hkey
    · simp only [hf, hs, if_true, if_false, Bool.false_eq_true,
        Option.some.injEq] at hkey
      simp only [hf, if_true]
      rw [if_neg (by simp [hs]), hkey]
  · simp only [hf, Bool.false_eq_true, if_false, Option.some.injEq] at hkey
    simp only [hf, Bool.false_eq_true, if_false]
    rw [hkey]

/-- C4: for an eligible file whose extraction is falsy (NoKey): with
skipIfNoPrefix the pipeline increments `skipped` and logs a skip record
without invoking the placer (the result is the same for every placer and
keeps `fs` unchanged); without it the pipeline proceeds through the same
placement step as the HasKey path, keyed by the file's trimmed stem, or the
sentinel group name when that stem is empty. -/
theorem c4_nokey_fallback (pl : Placer α) (rs : ReSearch) (cfg : Config)
    (appDir : String) (s : RunState α) (e : Entry)
    (helig : eligEntry e = true)
    (hfal : pyFalsy (extractPrefix rs e.name cfg) = true) :
    (cfg.skipIfNoPrefix = true →
      processEntry pl rs cfg appDir s e =
        { s with skipped := s.skipped + 1,
                 log := s.log ++ ["SKIP(no prefix) | " ++ e.name] }) ∧
    (cfg.skipIfNoPrefix = false →
      processEntry pl rs cfg appDir s e =
        placeStep pl cfg appDir s e
          (if pyStrip (pyStem e.name) = "" then "UNGROUPED"
           else pyStrip (pyStem e.name))) := by
  rw [processEntry_elig pl rs cfg appDir s e helig]
  constructor <;> intro h <;> simp [hfal, h]

/-- Witness for C4: `_x.xlsx` has an empty key before the delimiter and is
skipped under skipIfNoPrefix. -/
theorem c4_nokey_fallback_witness :
    processEntry (failPlacer) reNone cfgSkip "d" scnCopyS0
      ⟨"_x.xlsx", true⟩ =
      { scnCopyS0 with skipped := scnCopyS0.skipped + 1,
                       log := scnCopyS0.log ++ ["SKIP(no prefix) | _x.xlsx"] } :=
  (c4_nokey_fallback failPlacer reNone cfgSkip "d" scnCopyS0
    ⟨"_x.xlsx", true⟩ (by decide) (by decide)).1 rfl

/-- C5: if placing the eligible file `e` (after the files of `l₁`) fails
with any exception, the pass increments `errors`, appends an error record
holding the file's name and the exception's kind and message, and continues
by running the very same loop over the remaining entries `l₂`; the counters
still account for every eligible file of the whole listing. -/
theorem c5_error_isolation (pl : Placer α) (rs : ReSearch) (cfg : Config)
    (appDir : String) (l₁ l₂ : List Entry) (e : Entry) (s₀ : RunState α)
    (k : String) (exc : PyExc)
    (helig : eligEntry e = true)
    (hkey : entryKey rs cfg e.name = some k)
    (herr : pl (runPass pl rs cfg appDir l₁ s₀).fs appDir e.name
      (appDir ++ "/" ++ k) cfg.mode = Except.error exc) :
    runPass pl rs cfg appDir (l₁ ++ e :: l₂) s₀ =
      runPass pl rs cfg appDir l₂
        { runPass pl rs cfg appDir l₁ s₀ with
            errors := (runPass pl rs cfg appDir l₁ s₀).errors + 1,
            log := (runPass pl rs cfg appDir l₁ s₀).log ++
              ["ERROR | " ++ e.name ++ " | " ++ exc.ename ++ ": " ++
                exc.msg] } ∧
    sumCounters (runPass pl rs cfg appDir (l₁ ++ e :: l₂) s₀) =
      sumCounters s₀ + (l₁ ++ e :: l₂).countP (fun x => eligEntry x) := by
  constructor
  · have hsplit : runPass pl rs cfg appDir (l₁ ++ e :: l₂) s₀ =
        runPass pl rs cfg appDir (e :: l₂)
          (runPass pl rs cfg appDir l₁ s₀) := by
      simp [runPass, List.foldl_append]
    rw [hsplit]
    have hstep : runPass pl rs cfg appDir (e :: l₂)
        (runPass pl rs cfg appDir l₁ s₀) =
        runPass pl rs cfg appDir l₂
          (processEntry pl rs cfg appDir
            (runPass pl rs cfg appDir l₁ s₀) e) := rfl
    rw [hstep,
      processEntry_key pl rs cfg appDir
        (runPass pl rs cfg appDir l₁ s₀) e k helig hkey]
    simp only [placeStep, herr]
  · exact runPass_sum pl rs cfg appDir (l₁ ++ e :: l₂) s₀

/-- Witness for C5: a failing placer errors one file and the pass still
counts both eligible files. -/
theorem c5_error_isolation_witness :
    sumCounters (runPass failPlacer reNone scnCopyCfg "d"
        (([] : List Entry) ++
          (⟨"report_jan.xlsx", true⟩ : Entry) :: [⟨"notes.xlsx", true⟩])
        scnCopyS0) =
      sumCounters scnCopyS0 +
        ((([] : List Entry) ++
          (⟨"report_jan.xlsx", true⟩ : Entry) ::
            [⟨"notes.xlsx", true⟩]).countP
          (fun x => eligEntry x)) :=
  (c5_error_isolation failPlacer reNone scnCopyCfg "d" []
    [⟨"notes.xlsx", true⟩] ⟨"report_jan.xlsx", true⟩ scnCopyS0 "report"
    ⟨"OSError", "disk full"⟩ (by decide) (by decide) rfl).2

/-- C6: an entry is eligible exactly when it is a file, its lowercased
extension is in the recognized spreadsheet set, and its name is neither the
configuration filename nor the log filename; an ineligible entry leaves the
whole pipeline state untouched (no counter, no log record), while an
eligible one adds exactly one count and one log record. -/
theorem c6_eligibility_filter (pl : Placer α) (rs : ReSearch) (cfg : Config)
    (appDir : String) (s : RunState α) (e : Entry) :
    (eligEntry e = true ↔
      (e.isFile = true ∧ pyLower (pySuffix e.name) ∈ EXCEL_EXTS ∧
        e.name ≠ CONFIG_FILENAME ∧ e.name ≠ LOG_FILENAME)) ∧
    (eligEntry e = false → processEntry pl rs cfg appDir s e = s) ∧
    (eligEntry e = true →
      sumCounters (processEntry pl rs cfg appDir s e) = sumCounters s + 1 ∧
      (processEntry pl rs cfg appDir s e).log.length = s.log.length + 1) := by
  refine ⟨⟨fun h => ?_, fun h => ?_⟩,
    processEntry_not_elig pl rs cfg appDir s e,
    fun h => ⟨processEntry_sum pl rs cfg appDir s e h,
      processEntry_log pl rs cfg appDir s e h⟩⟩
  · obtain ⟨h1, h2, h3⟩ := eligEntry_parts h
    exact ⟨h1, List.elem_iff.mp h2, fun hc => h3 (Or.inl hc),
      fun hl => h3 (Or.inr hl)⟩
  · obtain ⟨h1, h2, h3, h4⟩ := h
    simp only [eligEntry, h1, Bool.true_and, Bool.and_eq_true]
    constructor
    · exact List.elem_iff.mpr h2
    · simp [h3, h4]

/-- Witness for C6: a directory entry (`is_file` false) is ignored. -/
theorem c6_eligibility_filter_witness :
    processEntry failPlacer reNone scnCopyCfg "d" scnCopyS0
      ⟨"report.xlsx", false⟩ = scnCopyS0 :=
  (c6_eligibility_filter failPlacer reNone scnCopyCfg "d" scnCopyS0
    ⟨"report.xlsx", false⟩).2.1 (by decide)

/-- C7: each eligible file increments exactly one of the three counters by
one, so after the pass the counters' total exceeds the initial total by the
number of eligible entries; the final summary `mainRun` hands back carries
the pass-end counters unchanged. -/
theorem c7_counters_partition (pl : Placer α) (rs : ReSearch) (cfg : Config)
    (appDir : String) (entries : List Entry) (s₀ : RunState α) :
    (sumCounters (runPass pl rs cfg appDir entries s₀) =
      sumCounters s₀ + entries.countP (fun e => eligEntry e)) ∧
    (∀ (s : RunState α) (e : Entry), eligEntry e = true →
      ((processEntry pl rs cfg appDir s e).processed = s.processed + 1 ∧
        (processEntry pl rs cfg appDir s e).skipped = s.skipped ∧
        (processEntry pl rs cfg appDir s e).errors = s.errors) ∨
      ((processEntry pl rs cfg appDir s e).skipped = s.skipped + 1 ∧
        (processEntry pl rs cfg appDir s e).processed = s.processed ∧
        (processEntry pl rs cfg appDir s e).errors = s.errors) ∨
      ((processEntry pl rs cfg appDir s e).errors = s.errors + 1 ∧
        (processEntry pl rs cfg appDir s e).processed = s.processed ∧
        (processEntry pl rs cfg appDir s e).skipped = s.skipped)) ∧
    ((mainRun pl rs cfg appDir entries s₀).1.processed =
      (runPass pl rs cfg appDir entries
        { s₀ with log := s₀.log ++ [startRecord cfg] }).processed ∧
     (mainRun pl rs cfg appDir entries s₀).1.skipped =
      (runPass pl rs cfg appDir entries
        { s₀ with log := s₀.log ++ [startRecord cfg] }).skipped ∧
     (mainRun pl rs cfg appDir entries s₀).1.errors =
      (runPass pl rs cfg appDir entries
        { s₀ with log := s₀.log ++ [startRecord cfg] }).errors) := by
  refine ⟨runPass_sum pl rs cfg appDir entries s₀, ?_, rfl, rfl, rfl⟩
  intro s e he
  rw [processEntry_elig pl rs cfg appDir s e he]
  by_cases hf : pyFalsy (extractPrefix rs e.name cfg) = true
  · by_cases hs : cfg.skipIfNoPrefix = true
    · right; left; simp [hf, hs]
    · rcases placeStep_cases pl cfg appDir s e
        (if pyStrip (pyStem e.name) = "" then "UNGROUPED"
         else pyStrip (pyStem e.name)) with ⟨a, b, c, -⟩ | ⟨a, b, c, -⟩
      · left; simp [hf, hs, a, b, c]
      · right; right; simp [hf, hs, a, b, c]
  · rcases placeStep_cases pl cfg appDir s e
      ((extractPrefix rs e.name cfg).getD "") with
        ⟨a, b, c, -⟩ | ⟨a, b, c, -⟩
    · left; simp [hf, a, b, c]
    · right; right; simp [hf, a, b, c]

/-- C8: the run's exit value is 0 exactly when the pass ends with zero
errors and 1 exactly when it does not, and the returned state is the state
of the completed pass with the final END summary record appended. -/
theorem c8_exit_status (pl : Placer α) (rs : ReSearch) (cfg : Config)
    (appDir : String) (entries : List Entry) (s₀ : RunState α) :
    ((mainRun pl rs cfg appDir entries s₀).2 = 0 ↔
      (runPass pl rs cfg appDir entries
        { s₀ with log := s₀.log ++ [startRecord cfg] }).errors = 0) ∧
    ((mainRun pl rs cfg appDir entries s₀).2 = 1 ↔
      ¬(runPass pl rs cfg appDir entries
        { s₀ with log := s₀.log ++ [startRecord cfg] }).errors = 0) ∧
    ((mainRun pl rs cfg appDir entries s₀).1.log =
      (runPass pl rs cfg appDir entries
        { s₀ with log := s₀.log ++ [startRecord cfg] }).log ++
        [endRecord (runPass pl rs cfg appDir entries
          { s₀ with log := s₀.log ++ [startRecord cfg] })]) := by
  by_cases h : (runPass pl rs cfg appDir entries
      { s₀ with log := s₀.log ++ [startRecord cfg] }).errors = 0 <;>
    simp [mainRun, h]

/-- C10: when extraction is falsy, skipIfNoPrefix is off and the file's own
trimmed stem is empty, the group key is exactly the string "UNGROUPED", the
pipeline runs the placement step with it, and with the program's placer the
file lands in the `UNGROUPED` subdirectory and is counted as processed. -/
theorem c10_ungrouped_sentinel (pl : Placer α) (rs : ReSearch) (cfg : Config)
    (appDir : String) (s : RunState α) (e : Entry) (c : α)
    (helig : eligEntry e = true)
    (hfal : pyFalsy (extractPrefix rs e.name cfg) = true)
    (hskip : cfg.skipIfNoPrefix = false)
    (hstem : pyStrip (pyStem e.name) = "") :
    entryKey rs cfg e.name = some "UNGROUPED" ∧
    processEntry pl rs cfg appDir s e =
      placeStep pl cfg appDir s e "UNGROUPED" ∧
    ((s.fs.content (appDir ++ "/" ++ "UNGROUPED")).isSome = false →
      (s.fs.mkdir (appDir ++ "/" ++ "UNGROUPED")).content
        (appDir ++ "/" ++ e.name) = some c →
      (processEntry realPlacer rs cfg appDir s e).fs.isDir
        (appDir ++ "/" ++ "UNGROUPED") = true ∧
      (processEntry realPlacer rs cfg appDir s e).processed =
        s.processed + 1) := by
  have hkey : entryKey rs cfg e.name = some "UNGROUPED" := by
    simp [entryKey, hfal, hskip, hstem]
  refine ⟨hkey,
    processEntry_key pl rs cfg appDir s e "UNGROUPED" helig hkey, ?_⟩
  intro hdir hsrc
  rw [processEntry_key realPlacer rs cfg appDir s e "UNGROUPED" helig hkey]
  have heq := safeCopyOrMove_eq s.fs appDir e.name
    (appDir ++ "/" ++ "UNGROUPED") cfg.mode c hdir hsrc
  have hpl : realPlacer s.fs appDir e.name
      (appDir ++ "/" ++ "UNGROUPED") cfg.mode =
      safeCopyOrMove s.fs appDir e.name
        (appDir ++ "/" ++ "UNGROUPED") cfg.mode := rfl
  by_cases hm : cfg.mode = "copy"
  · rw [if_pos hm] at heq
    simp only [placeStep, hpl, heq]
    constructor
    · exact mkdir_isDir s.fs (appDir ++ "/" ++ "UNGROUPED")
    · trivial
  · rw [if_neg hm] at heq
    simp only [placeStep, hpl, heq]
    constructor
    · exact mkdir_isDir s.fs (appDir ++ "/" ++ "UNGROUPED")
    · trivial

/-- Witness for C10: a file named only by whitespace and its extension goes
to the UNGROUPED key. -/
theorem c10_ungrouped_sentinel_witness :
    entryKey reNone scnCopyCfg " .xlsx" = some "UNGROUPED" :=
  (c10_ungrouped_sentinel failPlacer reNone scnCopyCfg "d"
    (⟨⟨["d"], [("d/ .xlsx", 3)]⟩, 0, 0, 0, []⟩ : RunState Nat)
    ⟨" .xlsx", true⟩ 3 (by decide) (by decide) rfl (by decide)).1

end ExcelGrouper
